import Mathlib

/-!
Shallow embedding of the three analyzers of this repository
(src/python/performance_analyzer.py, quality_analyzer.py,
refactoring_analyzer.py) over a model of the Python `ast` module trees,
together with theorems settling the frozen claims about them.
-/

namespace Optimist

/-- Payload of an `ast.Constant` node.  Python `bool` is a subclass of
`int`, but `True`/`False` have numeric value 0/1 which never exceeds the
magic-number threshold, so they are covered by `intConst 0 / intConst 1`;
floats, strings of other kinds, `None` etc. are `otherConst`. -/
inductive PyConst where
  | intConst (v : Int)
  | strConst (s : String)
  | otherConst
deriving DecidableEq, Repr

/-- The `ast.arguments` record of a function definition: counts of
positional-only, plain (positional-or-keyword) and keyword-only
parameters, and presence of `*args` / `**kwargs`.  The analyzers read
only `len(node.args.args)`, the plain count. -/
structure PyArgs where
  posonlyargs : Nat := 0
  args : Nat := 0
  kwonlyargs : Nat := 0
  vararg : Bool := false
  kwarg : Bool := false
deriving DecidableEq, Repr

/-- Node kinds distinguished by some detector.  All other Python AST
node kinds (expressions, assignments, operators, `arguments`…) behave
identically in every detector and are collapsed into `classDef` (kept
separate only for readability of examples) and `other`. -/
inductive NKind where
  | module
  | functionDef (name : String) (args : PyArgs) (end_lineno : Option Nat)
  | classDef (name : String)
  | forStmt
  | whileStmt
  | ifStmt
  | withStmt
  | tryStmt
  | exceptHandler (hasTypeExpr : Bool)
  | boolOp (nvalues : Nat)
  | augAssign (isAdd : Bool)
  | constant (val : PyConst)
  | other
deriving DecidableEq, Repr

/-- A Python AST node: kind, `lineno`, and the children in
`ast.iter_child_nodes` order (for an `ExceptHandler`, the optional type
expression followed by the handler body; operator objects, which carry
no fields and match no detector, are not materialised). -/
inductive Node where
  | node (kind : NKind) (lineno : Nat) (children : List Node)

def Node.kind : Node → NKind
  | .node k _ _ => k

def Node.lineno : Node → Nat
  | .node _ l _ => l

def Node.children : Node → List Node
  | .node _ _ cs => cs

mutual

def Node.size : Node → Nat
  | .node _ _ cs => 1 + Node.sizeList cs

def Node.sizeList : List Node → Nat
  | [] => 0
  | c :: cs => Node.size c + Node.sizeList cs

end

theorem Node.sizeList_append (a b : List Node) :
    Node.sizeList (a ++ b) = Node.sizeList a + Node.sizeList b := by
  induction a with
  | nil => simp [Node.sizeList]
  | cons c cs ih => simp [Node.sizeList, ih]; omega

/-- Fuel-indexed breadth-first traversal; `Node.sizeList` of the queue
is exactly the number of nodes still to be emitted, so that much fuel
always suffices (see `walkList_cons`). -/
def walkFuel : Nat → List Node → List Node
  | 0, _ => []
  | _ + 1, [] => []
  | fuel + 1, n :: rest => n :: walkFuel fuel (rest ++ n.children)

/-- `ast.walk` on a queue of nodes: the deque-based breadth-first
traversal of the `ast` module (pop front, push the children at the
back, yield the node). -/
def walkList (q : List Node) : List Node :=
  walkFuel (Node.sizeList q) q

/-- `ast.walk(node)` of the `ast` module. -/
def walk (n : Node) : List Node := walkList [n]

theorem walkList_nil : walkList [] = [] := rfl

theorem walkList_cons (n : Node) (rest : List Node) :
    walkList (n :: rest) = n :: walkList (rest ++ n.children) := by
  show walkFuel (Node.sizeList (n :: rest)) (n :: rest) = _
  have h : Node.sizeList (n :: rest) =
      Node.sizeList (rest ++ n.children) + 1 := by
    cases n with
    | node k l cs =>
        simp [Node.sizeList, Node.size, Node.sizeList_append, Node.children]
        omega
  rw [h]
  rfl

/-! ## Kind predicates used by the detectors -/

/-- `isinstance(child, (ast.If, ast.For, ast.While, ast.With, ast.Try,
ast.ExceptHandler))` — the decision-point kinds of the cyclomatic count. -/
def isCycBranch (n : Node) : Bool :=
  match n.kind with
  | .ifStmt | .forStmt | .whileStmt | .withStmt | .tryStmt
  | .exceptHandler _ => true
  | _ => false

/-- `isinstance(child, (ast.If, ast.For, ast.While, ast.Try))` — the
kinds counted by the cognitive metric. -/
def isCogBranch (n : Node) : Bool :=
  match n.kind with
  | .ifStmt | .forStmt | .whileStmt | .tryStmt => true
  | _ => false

def isExceptHandlerNode (n : Node) : Bool :=
  match n.kind with
  | .exceptHandler _ => true
  | _ => false

/-- `handler.body`: the statements of an exception-handler clause (its
children minus the optional leading type expression). -/
def handlerBody (n : Node) : List Node :=
  match n.kind with
  | .exceptHandler true => n.children.drop 1
  | _ => n.children

/-- `node.handlers` of an `ast.Try` node. -/
def tryHandlers (n : Node) : List Node :=
  n.children.filter isExceptHandlerNode

/-! ## Quality analyzer (src/python/quality_analyzer.py) -/

/-- `calculate_cyclomatic_complexity(node)`: start at 1; walk the whole
subtree; +1 per branch kind; for a `BoolOp` with more than one operand,
+(number of operands − 1). -/
def calculate_cyclomatic_complexity (node : Node) : Nat :=
  (walk node).foldl
    (fun complexity child =>
      if isCycBranch child then complexity + 1
      else
        match child.kind with
        | .boolOp nvalues =>
            if nvalues > 1 then complexity + (nvalues - 1) else complexity
        | _ => complexity)
    1

/-- `calculate_cognitive_complexity(node)`: count of `If`/`For`/`While`/
`Try` nodes in the subtree. -/
def calculate_cognitive_complexity (node : Node) : Nat :=
  (walk node).foldl
    (fun complexity child =>
      if isCogBranch child then complexity + 1 else complexity)
    0

/-- One entry of the quality report's `complexity.functions` list. -/
structure FuncMetric where
  name : String
  line : Nat
  cyclomatic : Nat
  cognitive : Nat
  nestingDepth : Nat
  decisionPoints : Nat
deriving DecidableEq, Repr

/-- The first `for node in ast.walk(tree)` loop of
`quality_analyzer.analyze_file`: one `FuncMetric` per `FunctionDef`, in
walk order. -/
def qualityFunctions (tree : Node) : List FuncMetric :=
  (walk tree).foldl
    (fun functions node =>
      match node.kind with
      | .functionDef name _ _ =>
          let cyclomatic := calculate_cyclomatic_complexity node
          let cognitive := calculate_cognitive_complexity node
          functions ++ [{ name := name, line := node.lineno,
                          cyclomatic := cyclomatic, cognitive := cognitive,
                          nestingDepth := 0,
                          decisionPoints := cyclomatic - 1 }]
      | _ => functions)
    []

/-- One code-smell finding of the quality analyzer.  `magicValue`
records the integer interpolated into a MAGIC_NUMBER description
(`none` for the other smell kinds). -/
structure Smell where
  stype : String
  line : Nat
  description : String
  severity : String
  magicValue : Option Int := none
deriving DecidableEq, Repr

/-- The four smell lists the second walk loop appends to (`godObjects`
is never appended to and lives only in the report). -/
structure SmellLists where
  longParameterLists : List Smell := []
  longMethods : List Smell := []
  magicNumbers : List Smell := []
  emptyCatches : List Smell := []
deriving DecidableEq, Repr

/-- One step of the second `for node in ast.walk(tree)` loop of
`quality_analyzer.analyze_file` (the `if`/`elif` chain on the node). -/
def smellStep (s : SmellLists) (node : Node) : SmellLists :=
  match node.kind with
  | .functionDef name args end_lineno =>
      let s :=
        if args.args > 5 then
          { s with longParameterLists := s.longParameterLists ++
              [{ stype := "LONG_PARAMETER_LIST", line := node.lineno,
                 description :=
                   s!"Function {name} has {args.args} parameters",
                 severity := "medium" }] }
        else s
      match end_lineno with
      | some e =>
          if e ≠ 0 then
            let lines : Int := (e : Int) - (node.lineno : Int)
            if lines > 50 then
              { s with longMethods := s.longMethods ++
                  [{ stype := "LONG_METHOD", line := node.lineno,
                     description :=
                       s!"Function {name} is {lines} lines long",
                     severity := "medium" }] }
            else s
          else s
      | none => s
  | .tryStmt =>
      (tryHandlers node).foldl
        (fun s handler =>
          if (handlerBody handler).isEmpty then
            { s with emptyCatches := s.emptyCatches ++
                [{ stype := "EMPTY_CATCH", line := handler.lineno,
                   description := "Empty except block",
                   severity := "low" }] }
          else s)
        s
  | .constant (.intConst v) =>
      if v > 10 then
        { s with magicNumbers := s.magicNumbers ++
            [{ stype := "MAGIC_NUMBER", line := node.lineno,
               description := s!"Magic number: {v}",
               severity := "low", magicValue := some v }] }
      else s
  | _ => s

/-- The smell lists collected over the whole tree. -/
def qualitySmells (tree : Node) : SmellLists :=
  (walk tree).foldl smellStep {}

/-- Python `max(functions, key=lambda f: f.cyclomatic, default=None)`:
iterates keeping the current maximum, replacing it only on a strictly
greater key, so ties keep the earliest element. -/
def pyMaxByCyclomatic : List FuncMetric → Option FuncMetric
  | [] => none
  | f :: fs =>
      some (fs.foldl (fun best g =>
        if g.cyclomatic > best.cyclomatic then g else best) f)

structure ClassMetrics where
  total : Nat
  large : Nat
deriving DecidableEq, Repr

structure FunctionMetrics where
  total : Nat
  long : Nat
deriving DecidableEq, Repr

structure ComplexityReport where
  functions : List FuncMetric
  totalFunctions : Nat
  averageComplexity : Rat
  maxComplexity : Nat
  averageCognitive : Rat
  totalDecisionPoints : Nat
  mostComplexFunction : Option String
deriving DecidableEq, Repr

structure SmellsReport where
  godObjects : List Smell
  longParameterLists : List Smell
  longMethods : List Smell
  magicNumbers : List Smell
  emptyCatches : List Smell
  classMetrics : ClassMetrics
  functionMetrics : FunctionMetrics
deriving DecidableEq, Repr

/-- The single JSON document of the quality analyzer.  `error` is
`none` on success (the success shape has no `error` key); all other
keys are always present. -/
structure QualityReport where
  error : Option String
  complexity : ComplexityReport
  smells : SmellsReport
deriving DecidableEq, Repr

/-- `quality_analyzer.analyze_file`, with file reading and `ast.parse`
abstracted as the `Except` input: `.error e` is any read/decode/parse
failure with message `e` (the `except Exception` branch), `.ok tree` a
successful parse.  Averages are modelled exactly over `Rat` (the code
uses Python division; no claim depends on rounding). -/
def analyze_quality : Except String Node → QualityReport
  | .error e =>
      { error := some e
        complexity :=
          { functions := [], totalFunctions := 0, averageComplexity := 0,
            maxComplexity := 0, averageCognitive := 0,
            totalDecisionPoints := 0, mostComplexFunction := none }
        smells :=
          { godObjects := [], longParameterLists := [], longMethods := [],
            magicNumbers := [], emptyCatches := [],
            classMetrics := { total := 0, large := 0 },
            functionMetrics := { total := 0, long := 0 } } }
  | .ok tree =>
      let functions := qualityFunctions tree
      let smells := qualitySmells tree
      { error := none
        complexity :=
          { functions := functions
            totalFunctions := functions.length
            averageComplexity :=
              if functions.isEmpty then 0
              else ((functions.map (fun f => (f.cyclomatic : Rat))).sum
                    / (functions.length : Rat))
            maxComplexity :=
              (functions.map (fun f => f.cyclomatic)).foldl max 0
            averageCognitive :=
              if functions.isEmpty then 0
              else ((functions.map (fun f => (f.cognitive : Rat))).sum
                    / (functions.length : Rat))
            totalDecisionPoints :=
              (functions.map (fun f => f.decisionPoints)).sum
            mostComplexFunction :=
              (pyMaxByCyclomatic functions).map (fun f => f.name) }
        smells :=
          { godObjects := []
            longParameterLists := smells.longParameterLists
            longMethods := smells.longMethods
            magicNumbers := smells.magicNumbers
            emptyCatches := smells.emptyCatches
            classMetrics := { total := 0, large := 0 }
            functionMetrics := { total := functions.length,
                                 long := smells.longMethods.length } } }

/-! ## Performance analyzer (src/python/performance_analyzer.py) -/

structure PerfLoop where
  ltype : String
  depth : Nat
  line : Nat
  column : Nat
deriving DecidableEq, Repr

structure PerfFunc where
  name : String
  line : Nat
  params : Nat
deriving DecidableEq, Repr

/-- One `stringConcatIssues` entry; `varName` models the JSON key
`variable` (a Lean keyword). -/
structure ConcatIssue where
  line : Nat
  varName : String
deriving DecidableEq, Repr

/-- `isinstance(child, ast.AugAssign) and isinstance(child.op, ast.Add)
and hasattr(child.value, 'value') and isinstance(child.value.value,
str)`: the `value` field of an `AugAssign` is its last child, and the
only node whose own `value` attribute holds a `str` is a string
`Constant`. -/
def isStrConcatAug (n : Node) : Bool :=
  match n.kind with
  | .augAssign true =>
      match n.children.getLast? with
      | some (.node (.constant (.strConst _)) _ _) => true
      | _ => false
  | _ => false

def isLoopNode (n : Node) : Bool :=
  match n.kind with
  | .forStmt | .whileStmt => true
  | _ => false

/-- The inner `for child in ast.walk(node)` re-walk run at each loop
node: one issue per augmented string-add in the loop's subtree. -/
def loopConcatIssues (node : Node) : List ConcatIssue :=
  (walk node).foldl
    (fun issues child =>
      if isStrConcatAug child then
        issues ++ [{ line := child.lineno, varName := "string_var" }]
      else issues)
    []

/-- The traversal state of `performance_analyzer.analyze_file`:
`loop_stack` plus the three output lists. -/
structure PerfState where
  loop_stack : List Nat := []
  loops : List PerfLoop := []
  functions : List PerfFunc := []
  string_concat_issues : List ConcatIssue := []
deriving DecidableEq, Repr

/-- One step of the `for node in ast.walk(tree)` loop of
`performance_analyzer.analyze_file`.  At a loop node the code computes
`depth = len(loop_stack) + 1`, appends it to the stack, records the
loop, collects the string-concat issues of the subtree, and then—still
inside the handling of this same node—pops the stack (`dropLast`
undoes the append). -/
def perfStep (st : PerfState) (node : Node) : PerfState :=
  match node.kind with
  | .functionDef name args _ =>
      { st with functions := st.functions ++
          [{ name := name, line := node.lineno, params := args.args }] }
  | .forStmt | .whileStmt =>
      let depth := st.loop_stack.length + 1
      let stack := st.loop_stack ++ [depth]
      let ltype := if node.kind = .forStmt then "for" else "while"
      let loops := st.loops ++
        [{ ltype := ltype, depth := depth, line := node.lineno,
           column := 0 }]
      let issues := st.string_concat_issues ++ loopConcatIssues node
      { loop_stack := stack.dropLast, loops := loops,
        functions := st.functions, string_concat_issues := issues }
  | _ => st

/-- The single JSON document of the performance analyzer. -/
structure PerfReport where
  error : Option String
  loops : List PerfLoop
  functions : List PerfFunc
  stringConcatIssues : List ConcatIssue
deriving DecidableEq, Repr

/-- `performance_analyzer.analyze_file`, read/parse abstracted as the
`Except` input. -/
def analyze_performance : Except String Node → PerfReport
  | .error e =>
      { error := some e, loops := [], functions := [],
        stringConcatIssues := [] }
  | .ok tree =>
      let final := (walk tree).foldl perfStep {}
      { error := none, loops := final.loops,
        functions := final.functions,
        stringConcatIssues := final.string_concat_issues }

/-! ## Refactoring analyzer (src/python/refactoring_analyzer.py) -/

/-- The whitespace characters of Python `str.strip()` (ASCII; the
fixtures and claims use no exotic unicode spaces). -/
def isPySpace (c : Char) : Bool :=
  c = ' ' || c = '\t' || c = '\n' || c = '\r' || c = '\x0b' || c = '\x0c'

/-- Python `line.strip()`. -/
def pyStrip (s : String) : String :=
  ⟨((s.toList.dropWhile isPySpace).reverse.dropWhile isPySpace).reverse⟩

/-- `s.startswith('#')`: a one-character prefix test is a test on the
first character. -/
def pyStartsWithHash (s : String) : Bool :=
  match s.toList with
  | c :: _ => c = '#'
  | [] => false

/-- `line.strip().startswith('#')`. -/
def isCommentLine (line : String) : Bool :=
  pyStartsWithHash (pyStrip line)

def isWordChar (c : Char) : Bool :=
  c.isAlphanum || c = '_'

/-- `int()` on a run of decimal digits (leading zeros accepted). -/
def parseDigits (ds : List Char) : Int :=
  ds.foldl (fun acc c => acc * 10 + ((c.toNat : Int) - ('0'.toNat : Int))) 0

/-- Model of `re.search(r'\b\d{3,}\b|\b[1-9]\d{2,}\b', line)` followed
by `int(match.group())`.  Both alternatives need at least three digits
between word boundaries, and the greedy quantifier with the trailing
`\b` means a match is exactly a maximal digit run of length ≥ 3 whose
neighbours are non-word characters (a shorter prefix of the run leaves
a digit — a word character — right after, failing `\b`); positions
inside a run fail the leading `\b`.  The second alternative only
matches where the first does, and `re.search` returns the leftmost
match, so the search scans left to right for the first such run. -/
def magicSearchAux : Option Char → List Char → Option Int
  | _, [] => none
  | prev, c :: rest =>
      let boundary := match prev with
        | none => true
        | some p => !isWordChar p
      if boundary && c.isDigit then
        let run := c :: rest.takeWhile Char.isDigit
        let after := rest.dropWhile Char.isDigit
        let afterOk := match after with
          | [] => true
          | a :: _ => !isWordChar a
        if run.length ≥ 3 && afterOk then some (parseDigits run)
        else magicSearchAux (some c) rest
      else magicSearchAux (some c) rest

def magicSearch (line : String) : Option Int :=
  magicSearchAux none line.toList

/-- Splitting accumulator for `pySplitLines`. -/
def pySplitLinesAux : List Char → List Char → List String
  | acc, [] => [String.mk acc.reverse]
  | acc, c :: rest =>
      if c = '\n' then
        String.mk acc.reverse :: pySplitLinesAux [] rest
      else
        pySplitLinesAux (c :: acc) rest

/-- `content.split('\n')`: the maximal pieces between newline
characters, keeping empty pieces (`''.split('\n') == ['']`). -/
def pySplitLines (content : String) : List String :=
  pySplitLinesAux [] content.toList

/-- One entry of the refactoring report's `opportunities` list.
`magicValue` records the `num` of a MAGIC_NUMBER entry (the value
interpolated into its description); the constant `suggestion`,
`impact` and `example` prose fields, fixed per type and read by no
logic, are not materialised. -/
structure Opportunity where
  otype : String
  description : String
  priority : String
  file : String
  line : Nat
  magicValue : Option Int := none
deriving DecidableEq, Repr

/-- The `for node in ast.walk(tree)` loop of
`refactoring_analyzer.analyze_file`: per `FunctionDef`, a LONG_FUNCTION
entry (span > 30 lines) then a LONG_PARAMETER_LIST entry (> 5 plain
parameters). -/
def refactorTreeOpportunities (file_path : String) (tree : Node) :
    List Opportunity :=
  (walk tree).foldl
    (fun opportunities node =>
      match node.kind with
      | .functionDef name args end_lineno =>
          let opportunities :=
            match end_lineno with
            | some e =>
                if e ≠ 0 then
                  let lines_count : Int := (e : Int) - (node.lineno : Int)
                  if lines_count > 30 then
                    opportunities ++
                      [{ otype := "LONG_FUNCTION",
                         description :=
                           s!"Function {name} is {lines_count} lines long",
                         priority := "medium", file := file_path,
                         line := node.lineno }]
                  else opportunities
                else opportunities
            | none => opportunities
          if args.args > 5 then
            opportunities ++
              [{ otype := "LONG_PARAMETER_LIST",
                 description :=
                   s!"Function {name} has {args.args} parameters",
                 priority := "medium", file := file_path,
                 line := node.lineno }]
          else opportunities
      | _ => opportunities)
    []

/-- The `for i, line in enumerate(lines)` loop: per line, a LONG_LINE
entry (length > 100, non-comment) then a MAGIC_NUMBER entry (first
regex match, non-comment, value outside the allow-list). -/
def refactorLineOpportunities (file_path : String) (lines : List String) :
    List Opportunity :=
  lines.enum.foldl
    (fun opportunities il =>
      let i := il.1
      let line := il.2
      let opportunities :=
        if line.length > 100 && !isCommentLine line then
          opportunities ++
            [{ otype := "LONG_LINE",
               description :=
                 s!"Line is {line.length} characters - exceeds 100 char limit",
               priority := "low", file := file_path, line := i + 1 }]
        else opportunities
      match magicSearch line with
      | some num =>
          if !isCommentLine line then
            if !([0, 1, -1, 2, 10, 100, 1000].contains num) then
              opportunities ++
                [{ otype := "MAGIC_NUMBER",
                   description :=
                     s!"Magic number {num} found - should be named constant",
                   priority := "low", file := file_path, line := i + 1,
                   magicValue := some num }]
            else opportunities
          else opportunities
      | none => opportunities)
    []

/-- The `# Filter by focus area` block. -/
def filterFocus (focus_area : String) (opportunities : List Opportunity) :
    List Opportunity :=
  if focus_area ≠ "all" then
    if focus_area = "performance" then
      opportunities.filter (fun o => ["LONG_FUNCTION"].contains o.otype)
    else if focus_area = "maintainability" then
      opportunities.filter (fun o =>
        ["LONG_FUNCTION", "LONG_PARAMETER_LIST", "MAGIC_NUMBER"].contains
          o.otype)
    else if focus_area = "readability" then
      opportunities.filter (fun o =>
        ["LONG_LINE", "MAGIC_NUMBER"].contains o.otype)
    else opportunities
  else opportunities

structure PriorityBreakdown where
  high : Nat
  medium : Nat
  low : Nat
deriving DecidableEq, Repr

/-- The single JSON document of the refactoring analyzer. -/
structure RefactorReport where
  error : Option String
  opportunities : List Opportunity
  totalOpportunities : Nat
  priorityBreakdown : PriorityBreakdown
  focusArea : String
deriving DecidableEq, Repr

/-- `refactoring_analyzer.analyze_file(file_path, focus_area)`.  The
`Except` input abstracts reading and parsing: `.ok (content, tree)`
pairs the file text with its parse tree. -/
def analyze_refactoring (file_path : String)
    (input : Except String (String × Node)) (focus_area : String) :
    RefactorReport :=
  match input with
  | .error e =>
      { error := some e, opportunities := [], totalOpportunities := 0,
        priorityBreakdown := { high := 0, medium := 0, low := 0 },
        focusArea := focus_area }
  | .ok (content, tree) =>
      let lines := pySplitLines content
      let opportunities :=
        refactorTreeOpportunities file_path tree ++
          refactorLineOpportunities file_path lines
      let opportunities := filterFocus focus_area opportunities
      { error := none
        opportunities := opportunities
        totalOpportunities := opportunities.length
        priorityBreakdown :=
          { high := (opportunities.filter
              (fun o => o.priority = "high")).length
            medium := (opportunities.filter
              (fun o => o.priority = "medium")).length
            low := (opportunities.filter
              (fun o => o.priority = "low")).length }
        focusArea := focus_area }

/-! ## Characterization of the traversal folds

Each analyzer loop appends, per visited node, a node-determined batch
of records.  The `…Emit` functions below give those batches and the
lemmas rewrite each fold into `List.flatMap` form, which the claim
theorems are stated against. -/

/-- Per-node batch of the quality `functions` loop. -/
def qfEmit (node : Node) : List FuncMetric :=
  match node.kind with
  | .functionDef name _ _ =>
      let cyclomatic := calculate_cyclomatic_complexity node
      let cognitive := calculate_cognitive_complexity node
      [{ name := name, line := node.lineno, cyclomatic := cyclomatic,
         cognitive := cognitive, nestingDepth := 0,
         decisionPoints := cyclomatic - 1 }]
  | _ => []

theorem qualityFunctions_eq (tree : Node) :
    qualityFunctions tree = (walk tree).flatMap qfEmit := by
  have key : ∀ (l : List Node) (acc : List FuncMetric),
      l.foldl
        (fun functions node =>
          match node.kind with
          | .functionDef name _ _ =>
              let cyclomatic := calculate_cyclomatic_complexity node
              let cognitive := calculate_cognitive_complexity node
              functions ++ [{ name := name, line := node.lineno,
                              cyclomatic := cyclomatic, cognitive := cognitive,
                              nestingDepth := 0,
                              decisionPoints := cyclomatic - 1 }]
          | _ => functions) acc = acc ++ l.flatMap qfEmit := by
    intro l
    induction l with
    | nil => intro acc; simp
    | cons n l ih =>
        intro acc
        simp only [List.foldl_cons, List.flatMap_cons, ih]
        have hstep : ∀ acc' : List FuncMetric,
            (match n.kind with
              | .functionDef name _ _ =>
                  let cyclomatic := calculate_cyclomatic_complexity n
                  let cognitive := calculate_cognitive_complexity n
                  acc' ++ [{ name := name, line := n.lineno,
                             cyclomatic := cyclomatic, cognitive := cognitive,
                             nestingDepth := 0,
                             decisionPoints := cyclomatic - 1 }]
              | _ => acc') = acc' ++ qfEmit n := by
          intro acc'
          cases hk : n.kind <;> simp [qfEmit, hk]
        rw [hstep, List.append_assoc]
  simpa using key (walk tree) []

/-- Per-node batches of the quality smell loop. -/
def lplEmit (node : Node) : List Smell :=
  match node.kind with
  | .functionDef name args _ =>
      if args.args > 5 then
        [{ stype := "LONG_PARAMETER_LIST", line := node.lineno,
           description := s!"Function {name} has {args.args} parameters",
           severity := "medium" }]
      else []
  | _ => []

def lmEmit (node : Node) : List Smell :=
  match node.kind with
  | .functionDef name _ end_lineno =>
      match end_lineno with
      | some e =>
          if e ≠ 0 then
            let lines : Int := (e : Int) - (node.lineno : Int)
            if lines > 50 then
              [{ stype := "LONG_METHOD", line := node.lineno,
                 description := s!"Function {name} is {lines} lines long",
                 severity := "medium" }]
            else []
          else []
      | none => []
  | _ => []

def magicEmit (node : Node) : List Smell :=
  match node.kind with
  | .constant (.intConst v) =>
      if v > 10 then
        [{ stype := "MAGIC_NUMBER", line := node.lineno,
           description := s!"Magic number: {v}", severity := "low",
           magicValue := some v }]
      else []
  | _ => []

def ecEmit (node : Node) : List Smell :=
  match node.kind with
  | .tryStmt =>
      (tryHandlers node).flatMap (fun handler =>
        if (handlerBody handler).isEmpty then
          [{ stype := "EMPTY_CATCH", line := handler.lineno,
             description := "Empty except block", severity := "low" }]
        else [])
  | _ => []

theorem smellStep_eq (s : SmellLists) (node : Node) :
    smellStep s node =
      { longParameterLists := s.longParameterLists ++ lplEmit node
        longMethods := s.longMethods ++ lmEmit node
        magicNumbers := s.magicNumbers ++ magicEmit node
        emptyCatches := s.emptyCatches ++ ecEmit node } := by
  have hec : ∀ (hs : List Node) (s : SmellLists),
      hs.foldl
        (fun s handler =>
          if (handlerBody handler).isEmpty then
            { s with emptyCatches := s.emptyCatches ++
                [{ stype := "EMPTY_CATCH", line := handler.lineno,
                   description := "Empty except block",
                   severity := "low" }] }
          else s) s =
      { s with emptyCatches := s.emptyCatches ++
          hs.flatMap (fun handler =>
            if (handlerBody handler).isEmpty then
              [{ stype := "EMPTY_CATCH", line := handler.lineno,
                 description := "Empty except block", severity := "low" }]
            else []) } := by
    intro hs
    induction hs with
    | nil => intro s; simp
    | cons h hs ih =>
        intro s
        by_cases hb : (handlerBody h).isEmpty <;>
          simp [List.foldl_cons, hb, ih]
  cases node with
  | node k l cs =>
      cases k with
      | functionDef name args end_lineno =>
          cases end_lineno with
          | none =>
              by_cases h5 : args.args > 5 <;>
                simp [smellStep, lplEmit, lmEmit, magicEmit, ecEmit,
                  Node.kind, Node.lineno, h5]
          | some e =>
              by_cases h5 : args.args > 5 <;>
                by_cases he : e = 0 <;>
                  by_cases hl : ((e : Int) - (l : Int)) > 50 <;>
                    simp [smellStep, lplEmit, lmEmit, magicEmit, ecEmit,
                      Node.kind, Node.lineno, h5, he, hl]
      | tryStmt =>
          simp only [smellStep, Node.kind]
          rw [hec]
          simp [lplEmit, lmEmit, magicEmit, ecEmit, Node.kind]
      | constant v =>
          cases v with
          | intConst n =>
              by_cases hv : n > 10 <;>
                simp [smellStep, lplEmit, lmEmit, magicEmit, ecEmit,
                  Node.kind, Node.lineno, hv]
          | strConst s' =>
              simp [smellStep, lplEmit, lmEmit, magicEmit, ecEmit, Node.kind]
          | otherConst =>
              simp [smellStep, lplEmit, lmEmit, magicEmit, ecEmit, Node.kind]
      | module =>
          simp [smellStep, lplEmit, lmEmit, magicEmit, ecEmit, Node.kind]
      | classDef n =>
          simp [smellStep, lplEmit, lmEmit, magicEmit, ecEmit, Node.kind]
      | forStmt =>
          simp [smellStep, lplEmit, lmEmit, magicEmit, ecEmit, Node.kind]
      | whileStmt =>
          simp [smellStep, lplEmit, lmEmit, magicEmit, ecEmit, Node.kind]
      | ifStmt =>
          simp [smellStep, lplEmit, lmEmit, magicEmit, ecEmit, Node.kind]
      | withStmt =>
          simp [smellStep, lplEmit, lmEmit, magicEmit, ecEmit, Node.kind]
      | exceptHandler b =>
          simp [smellStep, lplEmit, lmEmit, magicEmit, ecEmit, Node.kind]
      | boolOp n =>
          simp [smellStep, lplEmit, lmEmit, magicEmit, ecEmit, Node.kind]
      | augAssign b =>
          simp [smellStep, lplEmit, lmEmit, magicEmit, ecEmit, Node.kind]
      | other =>
          simp [smellStep, lplEmit, lmEmit, magicEmit, ecEmit, Node.kind]

theorem qualitySmells_eq (tree : Node) :
    qualitySmells tree =
      { longParameterLists := (walk tree).flatMap lplEmit
        longMethods := (walk tree).flatMap lmEmit
        magicNumbers := (walk tree).flatMap magicEmit
        emptyCatches := (walk tree).flatMap ecEmit } := by
  have key : ∀ (l : List Node) (s : SmellLists),
      l.foldl smellStep s =
        { longParameterLists := s.longParameterLists ++ l.flatMap lplEmit
          longMethods := s.longMethods ++ l.flatMap lmEmit
          magicNumbers := s.magicNumbers ++ l.flatMap magicEmit
          emptyCatches := s.emptyCatches ++ l.flatMap ecEmit } := by
    intro l
    induction l with
    | nil => intro s; simp
    | cons n l ih =>
        intro s
        simp [List.foldl_cons, smellStep_eq, ih]
  simpa [qualitySmells] using key (walk tree) {}

/-- Per-node contribution of a `BoolOp` to the cyclomatic count. -/
def boolExtra (node : Node) : Nat :=
  match node.kind with
  | .boolOp nvalues => if nvalues > 1 then nvalues - 1 else 0
  | _ => 0

theorem boolExtra_of_branch (n : Node) (h : isCycBranch n = true) :
    boolExtra n = 0 := by
  cases n with
  | node k l cs => cases k <;> simp_all [isCycBranch, boolExtra, Node.kind]

theorem cyclomatic_eq (node : Node) :
    calculate_cyclomatic_complexity node =
      1 + ((walk node).filter isCycBranch).length +
        ((walk node).map boolExtra).sum := by
  have key : ∀ (l : List Node) (c : Nat),
      l.foldl
        (fun complexity child =>
          if isCycBranch child then complexity + 1
          else
            match child.kind with
            | .boolOp nvalues =>
                if nvalues > 1 then complexity + (nvalues - 1) else complexity
            | _ => complexity) c =
      c + (l.filter isCycBranch).length + (l.map boolExtra).sum := by
    intro l
    induction l with
    | nil => intro c; simp
    | cons n l ih =>
        intro c
        by_cases hb : isCycBranch n
        · rw [List.foldl_cons, ih]
          rw [if_pos hb]
          simp [List.filter_cons, hb, boolExtra_of_branch n hb]
          omega
        · have hstep :
              (match n.kind with
                | .boolOp nvalues =>
                    if nvalues > 1 then c + (nvalues - 1) else c
                | _ => c) = c + boolExtra n := by
            cases n with
            | node k lno cs =>
                cases k <;> simp [boolExtra, Node.kind]
                split <;> omega
          rw [List.foldl_cons, ih]
          rw [if_neg hb, hstep]
          simp [List.filter_cons, hb]
          omega
  rw [calculate_cyclomatic_complexity, key]

theorem cognitive_eq (node : Node) :
    calculate_cognitive_complexity node =
      ((walk node).filter isCogBranch).length := by
  have key : ∀ (l : List Node) (c : Nat),
      l.foldl
        (fun complexity child =>
          if isCogBranch child then complexity + 1 else complexity) c =
      c + (l.filter isCogBranch).length := by
    intro l
    induction l with
    | nil => intro c; simp
    | cons n l ih =>
        intro c
        by_cases hb : isCogBranch n <;>
          simp [List.foldl_cons, hb, ih, List.filter_cons]
        omega
  rw [calculate_cognitive_complexity, key]
  omega

/-! ### Performance-analyzer fold -/

def perfFuncEmit (node : Node) : List PerfFunc :=
  match node.kind with
  | .functionDef name args _ =>
      [{ name := name, line := node.lineno, params := args.args }]
  | _ => []

def perfLoopEmit (node : Node) : List PerfLoop :=
  match node.kind with
  | .forStmt => [{ ltype := "for", depth := 1, line := node.lineno,
                   column := 0 }]
  | .whileStmt => [{ ltype := "while", depth := 1, line := node.lineno,
                     column := 0 }]
  | _ => []

def perfConcatEmit (node : Node) : List ConcatIssue :=
  if isLoopNode node then loopConcatIssues node else []

/-- With an empty `loop_stack`, one step of the performance walk leaves
the stack empty (the append is immediately undone by the pop) and
appends the node-determined batches; in particular every recorded loop
gets `depth = 0 + 1 = 1`. -/
theorem perfStep_eq (st : PerfState) (node : Node)
    (h : st.loop_stack = []) :
    perfStep st node =
      { loop_stack := []
        loops := st.loops ++ perfLoopEmit node
        functions := st.functions ++ perfFuncEmit node
        string_concat_issues :=
          st.string_concat_issues ++ perfConcatEmit node } := by
  cases st with
  | mk ls lps fns cis =>
      cases node with
      | node k l cs =>
          cases k <;>
            simp_all [perfStep, perfLoopEmit, perfFuncEmit, perfConcatEmit,
              isLoopNode, Node.kind, Node.lineno]

theorem perf_foldl (l : List Node) :
    ∀ (st : PerfState), st.loop_stack = [] →
      l.foldl perfStep st =
        { loop_stack := []
          loops := st.loops ++ l.flatMap perfLoopEmit
          functions := st.functions ++ l.flatMap perfFuncEmit
          string_concat_issues :=
            st.string_concat_issues ++ l.flatMap perfConcatEmit } := by
  induction l with
  | nil => intro st h; cases st; simp_all
  | cons n l ih =>
      intro st h
      simp [List.foldl_cons, perfStep_eq st n h, ih]

theorem analyze_performance_ok (tree : Node) :
    analyze_performance (.ok tree) =
      { error := none
        loops := (walk tree).flatMap perfLoopEmit
        functions := (walk tree).flatMap perfFuncEmit
        stringConcatIssues := (walk tree).flatMap perfConcatEmit } := by
  simp [analyze_performance, perf_foldl (walk tree) {} rfl]

theorem loopConcatIssues_eq (node : Node) :
    loopConcatIssues node =
      ((walk node).filter isStrConcatAug).map
        (fun a => { line := a.lineno, varName := "string_var" }) := by
  have key : ∀ (l : List Node) (acc : List ConcatIssue),
      l.foldl
        (fun issues child =>
          if isStrConcatAug child then
            issues ++ [{ line := child.lineno, varName := "string_var" }]
          else issues) acc =
      acc ++ (l.filter isStrConcatAug).map
        (fun a => { line := a.lineno, varName := "string_var" }) := by
    intro l
    induction l with
    | nil => intro acc; simp
    | cons n l ih =>
        intro acc
        by_cases hb : isStrConcatAug n <;>
          simp [List.foldl_cons, hb, ih, List.filter_cons]
  simpa [loopConcatIssues] using key (walk node) []

/-! ### Refactoring-analyzer folds -/

theorem foldl_append_eq {α β : Type} (step : List β → α → List β)
    (emit : α → List β) (h : ∀ acc a, step acc a = acc ++ emit a) :
    ∀ (l : List α) (acc : List β), l.foldl step acc = acc ++ l.flatMap emit := by
  intro l
  induction l with
  | nil => intro acc; simp
  | cons a l ih =>
      intro acc
      rw [List.foldl_cons, h, ih, List.flatMap_cons, List.append_assoc]

/-- Per-`FunctionDef` batch of the refactoring tree loop. -/
def rtEmit (file_path : String) (node : Node) : List Opportunity :=
  match node.kind with
  | .functionDef name args end_lineno =>
      (match end_lineno with
        | some e =>
            if e ≠ 0 then
              let lines_count : Int := (e : Int) - (node.lineno : Int)
              if lines_count > 30 then
                [{ otype := "LONG_FUNCTION",
                   description :=
                     s!"Function {name} is {lines_count} lines long",
                   priority := "medium", file := file_path,
                   line := node.lineno }]
              else []
            else []
        | none => []) ++
      (if args.args > 5 then
        [{ otype := "LONG_PARAMETER_LIST",
           description := s!"Function {name} has {args.args} parameters",
           priority := "medium", file := file_path, line := node.lineno }]
      else [])
  | _ => []

theorem refactorTreeOpportunities_eq (file_path : String) (tree : Node) :
    refactorTreeOpportunities file_path tree =
      (walk tree).flatMap (rtEmit file_path) := by
  have h : ∀ (acc : List Opportunity) (node : Node),
      (match node.kind with
        | .functionDef name args end_lineno =>
            let opportunities :=
              match end_lineno with
              | some e =>
                  if e ≠ 0 then
                    let lines_count : Int := (e : Int) - (node.lineno : Int)
                    if lines_count > 30 then
                      acc ++
                        [{ otype := "LONG_FUNCTION",
                           description :=
                             s!"Function {name} is {lines_count} lines long",
                           priority := "medium", file := file_path,
                           line := node.lineno }]
                    else acc
                  else acc
              | none => acc
            if args.args > 5 then
              opportunities ++
                [{ otype := "LONG_PARAMETER_LIST",
                   description :=
                     s!"Function {name} has {args.args} parameters",
                   priority := "medium", file := file_path,
                   line := node.lineno }]
            else opportunities
        | _ => acc) = acc ++ rtEmit file_path node := by
    intro acc n
    cases n with
    | node k l cs =>
        cases k with
        | functionDef name args end_lineno =>
            cases end_lineno with
            | none =>
                by_cases h5 : args.args > 5 <;>
                  simp [rtEmit, Node.kind, Node.lineno, h5]
            | some e =>
                by_cases h5 : args.args > 5 <;>
                  by_cases he : e = 0 <;>
                    by_cases hl : ((e : Int) - (l : Int)) > 30 <;>
                      simp [rtEmit, Node.kind, Node.lineno, h5, he, hl]
        | module => simp [rtEmit, Node.kind]
        | classDef n => simp [rtEmit, Node.kind]
        | forStmt => simp [rtEmit, Node.kind]
        | whileStmt => simp [rtEmit, Node.kind]
        | ifStmt => simp [rtEmit, Node.kind]
        | withStmt => simp [rtEmit, Node.kind]
        | tryStmt => simp [rtEmit, Node.kind]
        | exceptHandler b => simp [rtEmit, Node.kind]
        | boolOp n => simp [rtEmit, Node.kind]
        | augAssign b => simp [rtEmit, Node.kind]
        | constant v => simp [rtEmit, Node.kind]
        | other => simp [rtEmit, Node.kind]
  simpa [refactorTreeOpportunities] using
    foldl_append_eq _ (rtEmit file_path) h (walk tree) []

/-- Per-line batch of the refactoring line loop. -/
def rlEmit (file_path : String) (il : Nat × String) : List Opportunity :=
  (if il.2.length > 100 && !isCommentLine il.2 then
    [{ otype := "LONG_LINE",
       description :=
         s!"Line is {il.2.length} characters - exceeds 100 char limit",
       priority := "low", file := file_path, line := il.1 + 1 }]
  else []) ++
  (match magicSearch il.2 with
    | some num =>
        if !isCommentLine il.2 then
          if !([0, 1, -1, 2, 10, 100, 1000].contains num) then
            [{ otype := "MAGIC_NUMBER",
               description :=
                 s!"Magic number {num} found - should be named constant",
               priority := "low", file := file_path, line := il.1 + 1,
               magicValue := some num }]
          else []
        else []
    | none => [])

theorem refactorLineOpportunities_eq (file_path : String)
    (lines : List String) :
    refactorLineOpportunities file_path lines =
      lines.enum.flatMap (rlEmit file_path) := by
  have h : ∀ (acc : List Opportunity) (il : Nat × String),
      (let acc2 :=
        if il.2.length > 100 && !isCommentLine il.2 then
          acc ++
            [{ otype := "LONG_LINE",
               description :=
                 s!"Line is {il.2.length} characters - exceeds 100 char limit",
               priority := "low", file := file_path, line := il.1 + 1 }]
        else acc
      match magicSearch il.2 with
      | some num =>
          if !isCommentLine il.2 then
            if !([0, 1, -1, 2, 10, 100, 1000].contains num) then
              acc2 ++
                [{ otype := "MAGIC_NUMBER",
                   description :=
                     s!"Magic number {num} found - should be named constant",
                   priority := "low", file := file_path, line := il.1 + 1,
                   magicValue := some num }]
            else acc2
          else acc2
      | none => acc2) = acc ++ rlEmit file_path il := by
    intro acc il
    cases hm : magicSearch il.2 with
    | none =>
        simp only [rlEmit, hm]
        split_ifs <;> simp
    | some num =>
        by_cases hc : isCommentLine il.2
        · simp [rlEmit, hm, hc]
        · simp only [rlEmit, hm, hc]
          split_ifs <;> simp [hc]
  simpa [refactorLineOpportunities] using
    foldl_append_eq _ (rlEmit file_path) h lines.enum []

/-! ### First-maximum behaviour of Python `max` -/

/-- The fold of `pyMaxByCyclomatic` returns the first element of
`b :: xs` attaining the maximal cyclomatic value: everything is `≤` it
and everything strictly before it is `<` it. -/
theorem foldl_firstmax (xs : List FuncMetric) :
    ∀ b : FuncMetric,
      ∃ pre post,
        b :: xs = pre ++
          (xs.foldl (fun best g =>
            if g.cyclomatic > best.cyclomatic then g else best) b) :: post ∧
        (∀ g ∈ b :: xs,
          g.cyclomatic ≤
            (xs.foldl (fun best g =>
              if g.cyclomatic > best.cyclomatic then g else best)
              b).cyclomatic) ∧
        (∀ g ∈ pre,
          g.cyclomatic <
            (xs.foldl (fun best g =>
              if g.cyclomatic > best.cyclomatic then g else best)
              b).cyclomatic) := by
  induction xs with
  | nil =>
      intro b
      refine ⟨[], [], by simp, ?_, by simp⟩
      intro g hg
      simp at hg
      simp [hg]
  | cons x xs ih =>
      intro b
      by_cases hx : x.cyclomatic > b.cyclomatic
      · obtain ⟨pre', post', heq, hmax, hpre⟩ := ih x
        refine ⟨b :: pre', post', ?_, ?_, ?_⟩
        · rw [List.cons_append]
          simp only [List.foldl_cons, if_pos hx]
          rw [← heq]
        · intro g hg
          simp only [List.foldl_cons, if_pos hx]
          rcases List.mem_cons.mp hg with h1 | h2
          · subst h1
            exact le_of_lt (lt_of_lt_of_le hx (hmax x (List.mem_cons_self x xs)))
          · exact hmax g h2
        · intro g hg
          simp only [List.foldl_cons, if_pos hx]
          rcases List.mem_cons.mp hg with h1 | h2
          · subst h1
            exact lt_of_lt_of_le hx (hmax x (List.mem_cons_self x xs))
          · exact hpre g h2
      · obtain ⟨pre', post', heq, hmax, hpre⟩ := ih b
        cases pre' with
        | nil =>
            simp only [List.nil_append] at heq
            injection heq with hd tl
            refine ⟨[], x :: xs, ?_, ?_, by simp⟩
            · simp only [List.foldl_cons, if_neg hx, List.nil_append]
              rw [← hd]
            · intro g hg
              simp only [List.foldl_cons, if_neg hx]
              rcases List.mem_cons.mp hg with h1 | h2
              · rw [h1]
                exact hmax b (List.mem_cons_self b xs)
              · rcases List.mem_cons.mp h2 with h3 | h4
                · rw [h3]
                  calc x.cyclomatic ≤ b.cyclomatic := le_of_not_lt hx
                    _ ≤ _ := hmax b (List.mem_cons_self b xs)
                · exact hmax g (List.mem_cons_of_mem b h4)
        | cons p ps =>
            rw [List.cons_append] at heq
            injection heq with hd tl
            have hbpre : b ∈ p :: ps := by
              rw [hd]
              exact List.mem_cons_self p ps
            refine ⟨b :: x :: ps, post', ?_, ?_, ?_⟩
            · simp only [List.foldl_cons, if_neg hx]
              rw [List.cons_append, List.cons_append, ← tl]
            · intro g hg
              simp only [List.foldl_cons, if_neg hx]
              rcases List.mem_cons.mp hg with h1 | h2
              · rw [h1]
                exact hmax b (List.mem_cons_self b xs)
              · rcases List.mem_cons.mp h2 with h3 | h4
                · rw [h3]
                  calc x.cyclomatic ≤ b.cyclomatic := le_of_not_lt hx
                    _ ≤ _ := hmax b (List.mem_cons_self b xs)
                · exact hmax g (List.mem_cons_of_mem b h4)
            · intro g hg
              simp only [List.foldl_cons, if_neg hx]
              rcases List.mem_cons.mp hg with h1 | h2
              · rw [h1]
                exact hpre b hbpre
              · rcases List.mem_cons.mp h2 with h3 | h4
                · rw [h3]
                  calc x.cyclomatic ≤ b.cyclomatic := le_of_not_lt hx
                    _ < _ := hpre b hbpre
                · exact hpre g (List.mem_cons_of_mem p h4)

/-- `pyMaxByCyclomatic` of a nonempty list is the first element
attaining the maximum. -/
theorem pyMaxByCyclomatic_spec (l : List FuncMetric) (h : l ≠ []) :
    ∃ f pre post,
      l = pre ++ f :: post ∧
      pyMaxByCyclomatic l = some f ∧
      (∀ g ∈ l, g.cyclomatic ≤ f.cyclomatic) ∧
      (∀ g ∈ pre, g.cyclomatic < f.cyclomatic) := by
  cases l with
  | nil => exact absurd rfl h
  | cons b xs =>
      obtain ⟨pre, post, heq, hmax, hpre⟩ := foldl_firstmax xs b
      exact ⟨_, pre, post, heq, rfl, hmax, hpre⟩

/-! ### Membership in the walk -/

theorem Node.size_eq (n : Node) : n.size = 1 + Node.sizeList n.children := by
  cases n
  rfl

theorem mem_walkList_of_mem :
    ∀ (q : List Node) (n : Node), n ∈ q → n ∈ walkList q
  | [], n, h => absurd h (List.not_mem_nil n)
  | x :: rest, n, h => by
      rw [walkList_cons]
      rcases List.mem_cons.mp h with h1 | h2
      · exact h1 ▸ List.mem_cons_self _ _
      · exact List.mem_cons_of_mem _
          (mem_walkList_of_mem (rest ++ x.children) n
            (List.mem_append_left _ h2))
termination_by q _ _ => Node.sizeList q
decreasing_by
  simp [Node.sizeList, Node.sizeList_append, Node.size_eq]
  omega

/-- Every child of a walked node is itself in the walk (the walk
contains the entire subtree of every queue element). -/
theorem mem_walkList_children :
    ∀ (q : List Node) (n : Node), n ∈ walkList q →
      ∀ c ∈ n.children, c ∈ walkList q
  | [], n, h, c, hc => by
      rw [walkList_nil] at h
      exact absurd h (List.not_mem_nil n)
  | x :: rest, n, h, c, hc => by
      rw [walkList_cons] at h ⊢
      rcases List.mem_cons.mp h with h1 | h2
      · subst h1
        exact List.mem_cons_of_mem _
          (mem_walkList_of_mem _ _ (List.mem_append_right _ hc))
      · exact List.mem_cons_of_mem _
          (mem_walkList_children (rest ++ x.children) n h2 c hc)
termination_by q _ _ _ _ => Node.sizeList q
decreasing_by
  simp [Node.sizeList, Node.sizeList_append, Node.size_eq]
  omega

/-! ## Sample inputs used by witnesses and counterexamples -/

/-- A position-carrying leaf standing for any node no detector matches
(names, expressions, `pass`, …). -/
def leaf (l : Nat) : Node := .node .other l []

/-- `for i in r:` (line 1) whose body holds `for j in r:` (line 2) with
a `pass` body — a loop directly nested inside a loop.  The first two
children of each `For` stand for its target and iterator. -/
def nestedLoopsTree : Node :=
  .node .module 0
    [.node .forStmt 1
      [leaf 1, leaf 1,
       .node .forStmt 2 [leaf 2, leaf 2, leaf 3]]]

/-- Two sibling loops at the same scope (lines 1 and 3). -/
def siblingLoopsTree : Node :=
  .node .module 0
    [.node .forStmt 1 [leaf 1, leaf 1, leaf 2],
     .node .forStmt 3 [leaf 3, leaf 3, leaf 4]]

/-- A module whose single statement contains the integer literal 1000
(e.g. `x = 1000`). -/
def magicTree1000 : Node :=
  .node .module 0
    [.node .other 1 [leaf 1, .node (.constant (.intConst 1000)) 1 []]]

/-- `class C:` (line 1) with method `g` (line 2, one `if`), followed by
top-level `def f` (line 4, one `if`): `g` and `f` tie at cyclomatic 2,
`g` has the lower declaration line, yet the breadth-first walk yields
`f` before `g`. -/
def tieTree : Node :=
  .node .module 0
    [.node (.classDef "C") 1
      [.node (.functionDef "g" { args := 1 } (some 3)) 2
        [.node .ifStmt 3 [leaf 3, leaf 3]]],
     .node (.functionDef "f" {} (some 5)) 4
      [.node .ifStmt 5 [leaf 5, leaf 5]]]

/-- `def simple():` with a straight-line body — no branching. -/
def noBranchTree : Node :=
  .node .module 0
    [.node (.functionDef "simple" {} (some 2)) 1 [leaf 2]]

/-- `def one_if_one_loop():` with one `if` and one `for`. -/
def ifLoopTree : Node :=
  .node .module 0
    [.node (.functionDef "one_if_one_loop" {} (some 4)) 1
      [.node .ifStmt 2 [leaf 2, leaf 2],
       .node .forStmt 3 [leaf 3, leaf 3, leaf 4]]]

/-- A loop (line 1) whose body performs `s += "x"` (line 2). -/
def concatTree : Node :=
  .node .module 0
    [.node .forStmt 1
      [leaf 1, leaf 1,
       .node (.augAssign true) 2
        [leaf 2, .node (.constant (.strConst "x")) 2 []]]]

/-- `try:` (line 1) with one `except ValueError:` handler (line 3)
whose body is a single statement. -/
def tryTree : Node :=
  .node .module 0
    [.node .tryStmt 1
      [leaf 2,
       .node (.exceptHandler true) 3 [leaf 3, leaf 4]]]

/-- A function with 3 plain parameters plus 4 keyword-only parameters,
`*args` and `**kwargs` — 9 parameters in total, 3 plain. -/
def kwHeavyTree : Node :=
  .node .module 0
    [.node (.functionDef "kw_heavy"
      { args := 3, kwonlyargs := 4, vararg := true, kwarg := true }
      (some 2)) 1 [leaf 2]]

/-- A function with 6 plain parameters. -/
def sixParamTree : Node :=
  .node .module 0
    [.node (.functionDef "six" { args := 6 } (some 2)) 1 [leaf 2]]

/-! ## Claim C1 -/

/-- Every loop the performance analyzer records has depth 1: the stack
is popped in the same walk iteration that pushed it, so it is empty at
every loop entry. -/
theorem perf_all_depths_one (tree : Node) :
    ∀ loop ∈ (analyze_performance (.ok tree)).loops, loop.depth = 1 := by
  rw [analyze_performance_ok]
  intro loop hl
  obtain ⟨n, _, hn⟩ := List.mem_flatMap.mp hl
  cases n with
  | node k l cs =>
      cases k <;> simp_all [perfLoopEmit, Node.kind]

/-- C1: the claim says a loop directly nested inside another loop is
recorded with depth 2 (depths `[1]` then `[1, 2]`).  The code instead
records depth 1 for both loops of `nestedLoopsTree` — `loop_stack` is
appended to and popped within the handling of one walk node, so it is
always empty — while sibling loops also both get depth 1 (the only part
that matches the claim). -/
theorem C1_nested_loop_depth_failing_input :
    (analyze_performance (.ok nestedLoopsTree)).loops =
      [{ ltype := "for", depth := 1, line := 1, column := 0 },
       { ltype := "for", depth := 1, line := 2, column := 0 }] ∧
    (analyze_performance (.ok siblingLoopsTree)).loops =
      [{ ltype := "for", depth := 1, line := 1, column := 0 },
       { ltype := "for", depth := 1, line := 3, column := 0 }] := by
  constructor <;> rfl

/-! ## Claim C5 -/

/-- C5: on any read/decode/parse failure with (non-empty) message `e`,
each analyzer's report carries `error = e`, empty finding collections,
zero-valued aggregates, and every key of the success shape. -/
theorem C5_error_shaped_reports (e : String) (he : e ≠ "")
    (path focus : String) :
    analyze_quality (.error e) =
      { error := some e
        complexity :=
          { functions := [], totalFunctions := 0, averageComplexity := 0,
            maxComplexity := 0, averageCognitive := 0,
            totalDecisionPoints := 0, mostComplexFunction := none }
        smells :=
          { godObjects := [], longParameterLists := [], longMethods := [],
            magicNumbers := [], emptyCatches := [],
            classMetrics := { total := 0, large := 0 },
            functionMetrics := { total := 0, long := 0 } } } ∧
    analyze_performance (.error e) =
      { error := some e, loops := [], functions := [],
        stringConcatIssues := [] } ∧
    analyze_refactoring path (.error e) focus =
      { error := some e, opportunities := [], totalOpportunities := 0,
        priorityBreakdown := { high := 0, medium := 0, low := 0 },
        focusArea := focus } ∧
    (analyze_quality (.error e)).error ≠ some "" := by
  refine ⟨rfl, rfl, rfl, ?_⟩
  simp [analyze_quality, he]

theorem C5_error_shaped_reports_witness :
    ("boom" : String) ≠ "" ∧
    (analyze_quality (.error "boom")).error = some "boom" ∧
    (analyze_refactoring "f.py" (.error "boom") "all").opportunities = [] := by
  have h := C5_error_shaped_reports "boom" (by decide) "f.py" "all"
  exact ⟨by decide, by rw [h.1], by rw [h.2.2.1]⟩

/-! ## Claim C8 -/

theorem flatMap_ite_eq_filter_flatMap {α β : Type} (p : α → Bool)
    (g : α → List β) (l : List α) :
    l.flatMap (fun a => if p a then g a else []) =
      (l.filter p).flatMap g := by
  induction l with
  | nil => simp
  | cons a l ih =>
      by_cases hp : p a <;>
        simp [List.flatMap_cons, List.filter_cons, hp, ih]

/-- C8: the `stringConcatIssues` list has one entry per pair of a loop
node (in walk order) and an augmented string-add assignment in that
loop's subtree (so an occurrence inside a nested loop is reported once
for each enclosing loop), carrying the occurrence's line and the
constant placeholder `"string_var"` — never the actual variable name. -/
theorem C8_string_concat_issues (tree : Node) :
    (analyze_performance (.ok tree)).stringConcatIssues =
      ((walk tree).filter isLoopNode).flatMap (fun loop =>
        ((walk loop).filter isStrConcatAug).map
          (fun a => { line := a.lineno, varName := "string_var" })) ∧
    (∀ c ∈ (analyze_performance (.ok tree)).stringConcatIssues,
      c.varName = "string_var") := by
  have hmain : (analyze_performance (.ok tree)).stringConcatIssues =
      ((walk tree).filter isLoopNode).flatMap (fun loop =>
        ((walk loop).filter isStrConcatAug).map
          (fun a => { line := a.lineno, varName := "string_var" })) := by
    rw [analyze_performance_ok]
    show (walk tree).flatMap perfConcatEmit = _
    rw [← flatMap_ite_eq_filter_flatMap isLoopNode]
    congr 1
    funext n
    by_cases hn : isLoopNode n <;>
      simp [perfConcatEmit, hn, loopConcatIssues_eq]
  refine ⟨hmain, ?_⟩
  intro c hc
  rw [hmain] at hc
  obtain ⟨loop, _, hc2⟩ := List.mem_flatMap.mp hc
  obtain ⟨a, _, ha⟩ := List.mem_map.mp hc2
  rw [← ha]

theorem C8_string_concat_issues_witness :
    (analyze_performance (.ok concatTree)).stringConcatIssues =
      [{ line := 2, varName := "string_var" }] ∧
    ∀ c ∈ (analyze_performance (.ok concatTree)).stringConcatIssues,
      c.varName = "string_var" := by
  exact ⟨rfl, (C8_string_concat_issues concatTree).2⟩

/-! ## Claim C4 -/

/-- C4: cyclomatic complexity of a function is 1, plus one per
conditional / loop / `with` / `try` / handler node anywhere in its full
subtree, plus (N−1) per boolean combination with N operands
(`boolExtra`); `decisionPoints` is always `cyclomatic − 1`; a function
with no branching gets complexity 1 and decisionPoints 0; one `if`
plus one loop give complexity 3. -/
theorem C4_cyclomatic_complexity :
    (∀ node : Node,
      calculate_cyclomatic_complexity node =
        1 + ((walk node).filter isCycBranch).length +
          ((walk node).map boolExtra).sum) ∧
    (∀ tree : Node, ∀ f ∈ (analyze_quality (.ok tree)).complexity.functions,
      f.decisionPoints = f.cyclomatic - 1) ∧
    ((analyze_quality (.ok noBranchTree)).complexity.functions.map
      (fun f => (f.cyclomatic, f.decisionPoints)) = [(1, 0)]) ∧
    ((analyze_quality (.ok ifLoopTree)).complexity.functions.map
      (fun f => (f.cyclomatic, f.decisionPoints)) = [(3, 2)]) := by
  refine ⟨cyclomatic_eq, ?_, rfl, rfl⟩
  intro tree f hf
  have hf2 : f ∈ qualityFunctions tree := hf
  rw [qualityFunctions_eq] at hf2
  obtain ⟨n, _, hn⟩ := List.mem_flatMap.mp hf2
  cases n with
  | node k l cs =>
      cases k <;> simp_all [qfEmit, Node.kind]

theorem C4_cyclomatic_complexity_witness :
    ∃ f, f ∈ (analyze_quality (.ok ifLoopTree)).complexity.functions ∧
      f.decisionPoints = f.cyclomatic - 1 := by
  refine ⟨{ name := "one_if_one_loop", line := 1, cyclomatic := 3,
            cognitive := 2, nestingDepth := 0, decisionPoints := 2 },
          ?_, ?_⟩
  · decide
  · exact C4_cyclomatic_complexity.2.1 ifLoopTree _ (by decide)

/-! ## Claim C3 -/

/-- C3 counterexample: in `tieTree`, functions `f` (line 4) and `g`
(line 2) tie at the maximal cyclomatic complexity 2, but the walk is
breadth-first, so `f` — the function with the *higher* declaration
line — is encountered first and reported, refuting the claimed
lowest-declaration-line tie-break. -/
theorem C3_mostComplex_counterexample :
    (analyze_quality (.ok tieTree)).complexity.mostComplexFunction =
      some "f" ∧
    (analyze_quality (.ok tieTree)).complexity.functions.map
      (fun f => (f.name, f.line, f.cyclomatic)) =
      [("f", 4, 2), ("g", 2, 2)] ∧
    (analyze_quality (.ok tieTree)).complexity.maxComplexity = 2 := by
  exact ⟨rfl, rfl, rfl⟩

/-- C3 (amended): `mostComplexFunction` is `none` when the file has no
functions; otherwise it names the *first function in breadth-first
walk order* attaining the maximal cyclomatic complexity — which need
not be the one with the lowest declaration line. -/
theorem C3_mostComplex_first_in_walk_order (tree : Node) :
    ((analyze_quality (.ok tree)).complexity.functions = [] →
      (analyze_quality (.ok tree)).complexity.mostComplexFunction = none) ∧
    ((analyze_quality (.ok tree)).complexity.functions ≠ [] →
      ∃ f pre post,
        (analyze_quality (.ok tree)).complexity.functions =
          pre ++ f :: post ∧
        (analyze_quality (.ok tree)).complexity.mostComplexFunction =
          some f.name ∧
        (∀ g ∈ (analyze_quality (.ok tree)).complexity.functions,
          g.cyclomatic ≤ f.cyclomatic) ∧
        (∀ g ∈ pre, g.cyclomatic < f.cyclomatic)) := by
  have hfns : (analyze_quality (.ok tree)).complexity.functions =
      qualityFunctions tree := rfl
  have hmost : (analyze_quality (.ok tree)).complexity.mostComplexFunction =
      (pyMaxByCyclomatic (qualityFunctions tree)).map (fun f => f.name) := rfl
  constructor
  · intro h
    rw [hfns] at h
    rw [hmost, h]
    rfl
  · intro h
    rw [hfns] at h
    obtain ⟨f, pre, post, heq, hpy, hmax, hpre⟩ :=
      pyMaxByCyclomatic_spec (qualityFunctions tree) h
    refine ⟨f, pre, post, hfns ▸ heq, ?_, ?_, hpre⟩
    · rw [hmost, hpy]
      rfl
    · intro g hg
      exact hmax g (hfns ▸ hg)

theorem C3_mostComplex_first_in_walk_order_witness :
    (analyze_quality (.ok tieTree)).complexity.functions ≠ [] ∧
    ∃ f pre post,
      (analyze_quality (.ok tieTree)).complexity.functions =
        pre ++ f :: post ∧
      (analyze_quality (.ok tieTree)).complexity.mostComplexFunction =
        some f.name ∧
      (∀ g ∈ (analyze_quality (.ok tieTree)).complexity.functions,
        g.cyclomatic ≤ f.cyclomatic) ∧
      (∀ g ∈ pre, g.cyclomatic < f.cyclomatic) := by
  exact ⟨by decide,
    (C3_mostComplex_first_in_walk_order tieTree).2 (by decide)⟩

/-! ## Claim C9 -/

/-- The invariant `ast.parse` guarantees: the grammar requires a
nonempty statement block after every `except ...:`, so every
exception-handler clause of a parsed tree has a nonempty body. -/
def allHandlersNonempty (tree : Node) : Prop :=
  ∀ n ∈ walk tree, isExceptHandlerNode n = true →
    (handlerBody n).isEmpty = false

/-- C9: on any tree the parser can produce (every handler body
nonempty), the quality report's `emptyCatches` collection is empty —
the empty-handler branch is unreachable. -/
theorem C9_empty_catches_unreachable (tree : Node)
    (h : allHandlersNonempty tree) :
    (analyze_quality (.ok tree)).smells.emptyCatches = [] := by
  have he : (analyze_quality (.ok tree)).smells.emptyCatches =
      (walk tree).flatMap ecEmit := by
    show (qualitySmells tree).emptyCatches = _
    rw [qualitySmells_eq]
  rw [he, List.flatMap_eq_nil_iff]
  intro n hn
  cases n with
  | node k l cs =>
      cases k
      case tryStmt =>
          simp only [ecEmit, Node.kind]
          rw [List.flatMap_eq_nil_iff]
          intro handler hh
          simp only [tryHandlers, Node.children] at hh
          have hmem : handler ∈ cs := (List.mem_filter.mp hh).1
          have hex : isExceptHandlerNode handler = true :=
            (List.mem_filter.mp hh).2
          have hwalk : handler ∈ walk tree :=
            mem_walkList_children [tree] _ hn handler hmem
          have hne := h handler hwalk hex
          rw [hne]
          rfl
      all_goals rfl

theorem C9_empty_catches_unreachable_witness :
    (∀ n ∈ walk tryTree, isExceptHandlerNode n = true →
      (handlerBody n).isEmpty = false) ∧
    (analyze_quality (.ok tryTree)).smells.emptyCatches = [] := by
  have h9 : ∀ n ∈ walk tryTree, isExceptHandlerNode n = true →
      (handlerBody n).isEmpty = false := by decide
  exact ⟨h9, C9_empty_catches_unreachable tryTree h9⟩

/-! ## Claim C10 -/

/-- A module holding a single function definition whose body is one
plain statement. -/
def singleFunctionTree (name : String) (args : PyArgs) (lineno : Nat) :
    Node :=
  .node .module 0
    [.node (.functionDef name args none) lineno [leaf lineno]]

theorem rlEmit_otype (path : String) (il : Nat × String) :
    ∀ o ∈ rlEmit path il,
      o.otype = "LONG_LINE" ∨ o.otype = "MAGIC_NUMBER" := by
  intro o ho
  rw [rlEmit] at ho
  rcases List.mem_append.mp ho with h1 | h2
  · left
    split at h1 <;> simp_all
  · right
    rcases hm : magicSearch il.2 with _ | num
    · rw [hm] at h2
      simp at h2
    · rw [hm] at h2
      by_cases hc : isCommentLine il.2
      · simp [hc] at h2
      · simp [hc] at h2
        rw [h2.2]

theorem walk_singleFunctionTree (name : String) (args : PyArgs)
    (lineno : Nat) :
    walk (singleFunctionTree name args lineno) =
      [singleFunctionTree name args lineno,
       .node (.functionDef name args none) lineno [leaf lineno],
       leaf lineno] := by
  simp [walk, singleFunctionTree, walkList_cons, walkList_nil,
    Node.children, leaf]

/-- C10: the parameter count each analyzer reports or thresholds on is
`args.args` — the plain positional-or-keyword parameters only;
keyword-only parameters, `*args` and `**kwargs` never enter it.  So
`kwHeavyTree` (3 plain + 4 keyword-only + `*args` + `**kwargs`, 9
total) is reported with `params = 3` and flagged by nobody, while a
6-plain-parameter function is flagged by both. -/
theorem C10_parameter_counts :
    (∀ name args lineno path content,
      (analyze_performance (.ok (singleFunctionTree name args lineno))
        ).functions = [{ name := name, line := lineno,
                         params := args.args }] ∧
      (analyze_quality (.ok (singleFunctionTree name args lineno))
        ).smells.longParameterLists =
        (if args.args > 5 then
          [{ stype := "LONG_PARAMETER_LIST", line := lineno,
             description := s!"Function {name} has {args.args} parameters",
             severity := "medium" }]
        else []) ∧
      ((analyze_refactoring path
          (.ok (content, singleFunctionTree name args lineno)) "all"
        ).opportunities.filter
          (fun o => o.otype = "LONG_PARAMETER_LIST")) =
        (if args.args > 5 then
          [{ otype := "LONG_PARAMETER_LIST",
             description := s!"Function {name} has {args.args} parameters",
             priority := "medium", file := path, line := lineno }]
        else [])) ∧
    (analyze_performance (.ok kwHeavyTree)).functions =
      [{ name := "kw_heavy", line := 1, params := 3 }] ∧
    (analyze_quality (.ok kwHeavyTree)).smells.longParameterLists = [] ∧
    ((analyze_refactoring "f.py" (.ok ("", kwHeavyTree)) "all"
      ).opportunities.filter
        (fun o => o.otype = "LONG_PARAMETER_LIST")) = [] ∧
    ((analyze_quality (.ok sixParamTree)).smells.longParameterLists.map
      (fun s => (s.stype, s.line))) = [("LONG_PARAMETER_LIST", 1)] := by
  refine ⟨?_, rfl, rfl, rfl, rfl⟩
  intro name args lineno path content
  refine ⟨?_, ?_, ?_⟩
  · rw [analyze_performance_ok, walk_singleFunctionTree]
    simp [perfFuncEmit, singleFunctionTree, leaf, Node.kind, Node.lineno]
  · show (qualitySmells (singleFunctionTree name args lineno)
      ).longParameterLists = _
    rw [qualitySmells_eq, walk_singleFunctionTree]
    simp only [List.flatMap_cons, List.flatMap_nil, List.append_nil]
    simp [lplEmit, singleFunctionTree, leaf, Node.kind, Node.lineno]
  · show (filterFocus "all"
        (refactorTreeOpportunities path (singleFunctionTree name args lineno)
          ++ refactorLineOpportunities path (pySplitLines content))).filter
        (fun o => o.otype = "LONG_PARAMETER_LIST") = _
    have hall : ∀ l : List Opportunity, filterFocus "all" l = l := by
      intro l
      simp [filterFocus]
    rw [hall, List.filter_append]
    have hline : (refactorLineOpportunities path
        (pySplitLines content)).filter
        (fun o => o.otype = "LONG_PARAMETER_LIST") = [] := by
      rw [List.filter_eq_nil_iff]
      intro o ho
      rw [refactorLineOpportunities_eq] at ho
      obtain ⟨il, _, hil⟩ := List.mem_flatMap.mp ho
      rcases rlEmit_otype path il o hil with h1 | h1 <;> simp [h1]
    rw [hline, List.append_nil, refactorTreeOpportunities_eq,
      walk_singleFunctionTree]
    simp only [List.flatMap_cons, List.flatMap_nil, List.append_nil]
    by_cases h5 : args.args > 5 <;>
      simp [rtEmit, singleFunctionTree, leaf, Node.kind, Node.lineno, h5]

/-! ## Claim C7 -/

/-- The fixed type subset per focus area, as the spec states it:
`performance → {LONG_FUNCTION}`, `maintainability → {LONG_FUNCTION,
LONG_PARAMETER_LIST, MAGIC_NUMBER}`, `readability → {LONG_LINE,
MAGIC_NUMBER}`; `all` and every unrecognised value allow everything. -/
def specFocusAllowed (focus_area : String) (t : String) : Bool :=
  if focus_area = "performance" then t = "LONG_FUNCTION"
  else if focus_area = "maintainability" then
    t = "LONG_FUNCTION" || t = "LONG_PARAMETER_LIST" || t = "MAGIC_NUMBER"
  else if focus_area = "readability" then
    t = "LONG_LINE" || t = "MAGIC_NUMBER"
  else true

theorem filterFocus_eq (f : String) (l : List Opportunity) :
    filterFocus f l = l.filter (fun o => specFocusAllowed f o.otype) := by
  by_cases h1 : f = "all"
  · subst h1
    rw [filterFocus, if_neg (by simp)]
    exact (List.filter_eq_self.mpr (fun o _ => rfl)).symm
  · by_cases h2 : f = "performance"
    · subst h2
      rw [filterFocus, if_pos (by decide), if_pos rfl]
      refine List.filter_congr ?_
      intro o _
      simp [specFocusAllowed, List.contains]
    · by_cases h3 : f = "maintainability"
      · subst h3
        rw [filterFocus, if_pos (by decide), if_neg (by decide),
          if_pos rfl]
        refine List.filter_congr ?_
        intro o _
        simp [specFocusAllowed, List.contains, Bool.or_assoc]
      · by_cases h4 : f = "readability"
        · subst h4
          rw [filterFocus, if_pos (by decide), if_neg (by decide),
            if_neg (by decide), if_pos rfl]
          refine List.filter_congr ?_
          intro o _
          simp [specFocusAllowed, List.contains, Bool.or_assoc]
        · rw [filterFocus, if_pos h1, if_neg h2, if_neg h3, if_neg h4]
          refine (List.filter_eq_self.mpr ?_).symm
          intro o _
          simp [specFocusAllowed, h2, h3, h4]

/-- `filterFocus "all"` keeps everything. -/
theorem filterFocus_all (l : List Opportunity) : filterFocus "all" l = l := by
  rw [filterFocus_eq]
  exact List.filter_eq_self.mpr (fun o _ => rfl)

/-- The all-focus opportunity list is the tree findings followed by
the line findings. -/
theorem opportunities_all (path content : String) (tree : Node) :
    (analyze_refactoring path (.ok (content, tree)) "all").opportunities =
      refactorTreeOpportunities path tree ++
        refactorLineOpportunities path (pySplitLines content) := by
  show filterFocus "all" _ = _
  exact filterFocus_all _

/-- C7: for every input and focus value, the reported opportunity list
is the all-focus list filtered to the fixed type subset of that focus
(entries unchanged), and an unrecognised focus value reproduces the
all-focus report exactly (only the echoed `focusArea` differs). -/
theorem C7_focus_area_filtering :
    (∀ (path : String) (input : Except String (String × Node))
        (focus_area : String),
      (analyze_refactoring path input focus_area).opportunities =
        (analyze_refactoring path input "all").opportunities.filter
          (fun o => specFocusAllowed focus_area o.otype)) ∧
    (∀ (path : String) (input : Except String (String × Node))
        (focus_area : String),
      focus_area ≠ "performance" → focus_area ≠ "maintainability" →
      focus_area ≠ "readability" →
      analyze_refactoring path input focus_area =
        { analyze_refactoring path input "all" with
            focusArea := focus_area }) := by
  constructor
  · intro path input focus_area
    cases input with
    | error e => simp [analyze_refactoring]
    | ok ct =>
        obtain ⟨content, tree⟩ := ct
        rw [opportunities_all]
        show filterFocus focus_area _ = _
        rw [filterFocus_eq]
  · intro path input focus_area h2 h3 h4
    have hid : ∀ l : List Opportunity,
        l.filter (fun o => specFocusAllowed focus_area o.otype) = l := by
      intro l
      refine List.filter_eq_self.mpr ?_
      intro o _
      simp [specFocusAllowed, h2, h3, h4]
    cases input with
    | error e => simp [analyze_refactoring]
    | ok ct =>
        obtain ⟨content, tree⟩ := ct
        have hall : ∀ l : List Opportunity,
            l.filter (fun o => specFocusAllowed "all" o.otype) = l :=
          fun l => List.filter_eq_self.mpr (fun o _ => rfl)
        simp only [analyze_refactoring, filterFocus_eq, hid, hall]

theorem C7_focus_area_filtering_witness :
    ("frobnicate" : String) ≠ "performance" ∧
    analyze_refactoring "f.py"
        (.ok ("x = 1", .node .module 0 [leaf 1])) "frobnicate" =
      { analyze_refactoring "f.py"
          (.ok ("x = 1", .node .module 0 [leaf 1])) "all" with
          focusArea := "frobnicate" } := by
  exact ⟨by decide,
    C7_focus_area_filtering.2 "f.py" _ "frobnicate"
      (by decide) (by decide) (by decide)⟩

/-! ## Claim C2 -/

/-- A module whose single statement contains the integer literal 500
(e.g. `x = 500` — also the raw text used alongside it). -/
def magicTree500 : Node :=
  .node .module 0
    [.node .other 1 [leaf 1, .node (.constant (.intConst 500)) 1 []]]

theorem rtEmit_otype (path : String) (n : Node) :
    ∀ o ∈ rtEmit path n,
      o.otype = "LONG_FUNCTION" ∨ o.otype = "LONG_PARAMETER_LIST" := by
  intro o ho
  cases n with
  | node k l cs =>
      cases k with
      | functionDef name args e =>
          simp only [rtEmit, Node.kind] at ho
          rcases List.mem_append.mp ho with h1 | h2
          · left
            cases e with
            | none => exact absurd h1 (List.not_mem_nil o)
            | some e2 =>
                by_cases hz : e2 ≠ 0
                · simp only [if_pos hz] at h1
                  split at h1
                  · rw [List.mem_singleton] at h1
                    rw [h1]
                  · exact absurd h1 (List.not_mem_nil o)
                · simp only [if_neg hz] at h1
                  exact absurd h1 (List.not_mem_nil o)
          · right
            split at h2
            · rw [List.mem_singleton] at h2
              rw [h2]
            · exact absurd h2 (List.not_mem_nil o)
      | module => exact absurd ho (List.not_mem_nil o)
      | classDef name => exact absurd ho (List.not_mem_nil o)
      | forStmt => exact absurd ho (List.not_mem_nil o)
      | whileStmt => exact absurd ho (List.not_mem_nil o)
      | ifStmt => exact absurd ho (List.not_mem_nil o)
      | withStmt => exact absurd ho (List.not_mem_nil o)
      | tryStmt => exact absurd ho (List.not_mem_nil o)
      | exceptHandler b => exact absurd ho (List.not_mem_nil o)
      | boolOp nv => exact absurd ho (List.not_mem_nil o)
      | augAssign b => exact absurd ho (List.not_mem_nil o)
      | constant v => exact absurd ho (List.not_mem_nil o)
      | other => exact absurd ho (List.not_mem_nil o)

/-- C2 counterexample: the quality analyzer has no allow-list — the
literal 1000 yields a MAGIC_NUMBER smell (value 1000, line 1), so 1000
does appear in the quality magic-number findings. -/
theorem C2_quality_flags_1000_counterexample :
    ((analyze_quality (.ok magicTree1000)).smells.magicNumbers).map
      (fun m => (m.magicValue, m.line)) = [(some 1000, 1)] := by
  rfl

/-- C2 (amended): the allow-list `{0, 1, −1, 2, 10, 100, 1000}` governs
only the refactoring analyzer, whose MAGIC_NUMBER findings never carry
those values; the quality analyzer flags every integer literal
strictly above 10, so its magic-number findings all carry values > 10 —
excluding 0, 1, 2 and 10 but *including* 100 and 1000. -/
theorem C2_allow_list_refactoring_only :
    (∀ (path : String) (input : Except String (String × Node))
        (focus_area : String),
      ∀ o ∈ (analyze_refactoring path input focus_area).opportunities,
        o.otype = "MAGIC_NUMBER" →
        ∃ v, o.magicValue = some v ∧ v ≠ 0 ∧ v ≠ 1 ∧ v ≠ -1 ∧ v ≠ 2 ∧
          v ≠ 10 ∧ v ≠ 100 ∧ v ≠ 1000) ∧
    (∀ tree : Node,
      ∀ m ∈ (analyze_quality (.ok tree)).smells.magicNumbers,
        ∃ v, m.magicValue = some v ∧ v > 10) := by
  constructor
  · intro path input focus_area o ho hmn
    cases input with
    | error e => simp [analyze_refactoring] at ho
    | ok ct =>
        obtain ⟨content, tree⟩ := ct
        have ho2 : o ∈ refactorTreeOpportunities path tree ++
            refactorLineOpportunities path (pySplitLines content) := by
          have hstep := ho
          rw [show (analyze_refactoring path (.ok (content, tree))
              focus_area).opportunities =
              filterFocus focus_area
                (refactorTreeOpportunities path tree ++
                  refactorLineOpportunities path (pySplitLines content))
            from rfl, filterFocus_eq] at hstep
          exact (List.mem_filter.mp hstep).1
        rcases List.mem_append.mp ho2 with h1 | h2
        · rw [refactorTreeOpportunities_eq] at h1
          obtain ⟨n, _, hn⟩ := List.mem_flatMap.mp h1
          rcases rtEmit_otype path n o hn with h | h <;> rw [h] at hmn <;>
            exact absurd hmn (by decide)
        · rw [refactorLineOpportunities_eq] at h2
          obtain ⟨il, _, hil⟩ := List.mem_flatMap.mp h2
          rw [rlEmit] at hil
          rcases List.mem_append.mp hil with hL | hM
          · split at hL
            · rw [List.mem_singleton] at hL
              rw [hL] at hmn
              simp at hmn
            · exact absurd hL (List.not_mem_nil o)
          · rcases hm : magicSearch il.2 with _ | num
            · rw [hm] at hM
              simp at hM
            · rw [hm] at hM
              by_cases hc : isCommentLine il.2
              · simp [hc] at hM
              · simp [hc] at hM
                exact ⟨num, by rw [hM.2], hM.1.1, hM.1.2.1, hM.1.2.2.1,
                  hM.1.2.2.2.1, hM.1.2.2.2.2.1, hM.1.2.2.2.2.2.1,
                  hM.1.2.2.2.2.2.2⟩
  · intro tree m hm
    have hm2 : m ∈ (walk tree).flatMap magicEmit := by
      have heq : (analyze_quality (.ok tree)).smells.magicNumbers =
          (qualitySmells tree).magicNumbers := rfl
      rw [heq, qualitySmells_eq] at hm
      exact hm
    obtain ⟨n, _, hn⟩ := List.mem_flatMap.mp hm2
    cases n with
    | node k l cs =>
        cases k with
        | constant val =>
            cases val with
            | intConst v =>
                simp only [magicEmit, Node.kind] at hn
                by_cases hv : v > 10
                · simp only [if_pos hv, List.mem_singleton] at hn
                  exact ⟨v, by rw [hn], hv⟩
                · simp only [if_neg hv] at hn
                  exact absurd hn (List.not_mem_nil m)
            | strConst s2 => exact absurd hn (List.not_mem_nil m)
            | otherConst => exact absurd hn (List.not_mem_nil m)
        | module => exact absurd hn (List.not_mem_nil m)
        | functionDef name args e => exact absurd hn (List.not_mem_nil m)
        | classDef name => exact absurd hn (List.not_mem_nil m)
        | forStmt => exact absurd hn (List.not_mem_nil m)
        | whileStmt => exact absurd hn (List.not_mem_nil m)
        | ifStmt => exact absurd hn (List.not_mem_nil m)
        | withStmt => exact absurd hn (List.not_mem_nil m)
        | tryStmt => exact absurd hn (List.not_mem_nil m)
        | exceptHandler b => exact absurd hn (List.not_mem_nil m)
        | boolOp nv => exact absurd hn (List.not_mem_nil m)
        | augAssign b => exact absurd hn (List.not_mem_nil m)
        | other => exact absurd hn (List.not_mem_nil m)

theorem C2_allow_list_refactoring_only_witness :
    ({ otype := "MAGIC_NUMBER",
       description := "Magic number 500 found - should be named constant",
       priority := "low", file := "f.py", line := 1,
       magicValue := some 500 } : Opportunity) ∈
      (analyze_refactoring "f.py"
        (.ok ("x = 500", magicTree500)) "all").opportunities ∧
    (∃ v, (some (500 : Int)) = some v ∧ v ≠ 0 ∧ v ≠ 1 ∧ v ≠ -1 ∧ v ≠ 2 ∧
      v ≠ 10 ∧ v ≠ 100 ∧ v ≠ 1000) ∧
    ({ stype := "MAGIC_NUMBER", line := 1,
       description := "Magic number: 1000", severity := "low",
       magicValue := some 1000 } : Smell) ∈
      (analyze_quality (.ok magicTree1000)).smells.magicNumbers ∧
    (∃ v, (some (1000 : Int)) = some v ∧ v > 10) := by
  have hmem :
      ({ otype := "MAGIC_NUMBER",
         description := "Magic number 500 found - should be named constant",
         priority := "low", file := "f.py", line := 1,
         magicValue := some 500 } : Opportunity) ∈
      (analyze_refactoring "f.py"
        (.ok ("x = 500", magicTree500)) "all").opportunities := by decide
  have hmem2 :
      ({ stype := "MAGIC_NUMBER", line := 1,
         description := "Magic number: 1000", severity := "low",
         magicValue := some 1000 } : Smell) ∈
      (analyze_quality (.ok magicTree1000)).smells.magicNumbers := by decide
  have h1 := C2_allow_list_refactoring_only.1 "f.py"
    (.ok ("x = 500", magicTree500)) "all" _ hmem rfl
  have h2 := C2_allow_list_refactoring_only.2 magicTree1000 _ hmem2
  exact ⟨hmem, h1, hmem2, h2⟩

/-! ## Claim C6 -/

/-- A LONG_LINE entry at line `i + 1` exists in the all-focus report
exactly when raw line `i` is longer than 100 characters and is not a
comment line. -/
theorem longLine_mem_iff (path content : String) (tree : Node) (i : Nat) :
    (∃ o ∈ (analyze_refactoring path (.ok (content, tree))
        "all").opportunities,
      o.otype = "LONG_LINE" ∧ o.line = i + 1) ↔
    (∃ line, (pySplitLines content)[i]? = some line ∧
      line.length > 100 ∧ isCommentLine line = false) := by
  constructor
  · rintro ⟨o, ho, hot, hline⟩
    rw [opportunities_all] at ho
    rcases List.mem_append.mp ho with h1 | h2
    · exfalso
      rw [refactorTreeOpportunities_eq] at h1
      obtain ⟨n, _, hn⟩ := List.mem_flatMap.mp h1
      rcases rtEmit_otype path n o hn with h | h <;> rw [h] at hot <;>
        exact absurd hot (by decide)
    · rw [refactorLineOpportunities_eq] at h2
      obtain ⟨il, hilmem, hil⟩ := List.mem_flatMap.mp h2
      rw [rlEmit] at hil
      rcases List.mem_append.mp hil with hL | hM
      · by_cases hcond : (il.2.length > 100 && !isCommentLine il.2)
        · rw [if_pos hcond, List.mem_singleton] at hL
          have hi : il.1 = i := by
            rw [hL] at hline
            simpa using hline
          refine ⟨il.2, ?_, ?_, ?_⟩
          · rw [← hi]
            exact List.mem_enum_iff_getElem?.mp hilmem
          · have := (Bool.and_eq_true _ _).mp hcond
            simpa using this.1
          · have := (Bool.and_eq_true _ _).mp hcond
            simpa using this.2
        · rw [if_neg hcond] at hL
          exact absurd hL (List.not_mem_nil o)
      · exfalso
        rcases hm : magicSearch il.2 with _ | num
        · rw [hm] at hM
          exact absurd hM (List.not_mem_nil o)
        · rw [hm] at hM
          by_cases hc : isCommentLine il.2
          · simp [hc] at hM
          · simp [hc] at hM
            rw [hM.2] at hot
            simp at hot
  · rintro ⟨line, hget, hlen, hnc⟩
    refine ⟨{ otype := "LONG_LINE",
              description :=
                s!"Line is {line.length} characters - exceeds 100 char limit",
              priority := "low", file := path, line := i + 1 },
            ?_, rfl, rfl⟩
    rw [opportunities_all]
    apply List.mem_append_right
    rw [refactorLineOpportunities_eq]
    apply List.mem_flatMap.mpr
    refine ⟨(i, line), List.mem_enum_iff_getElem?.mpr hget, ?_⟩
    rw [rlEmit]
    apply List.mem_append_left
    rw [if_pos (by simp [hlen, hnc])]
    exact List.mem_singleton.mpr rfl

/-- C6: in the all-focus refactoring report, a raw line whose trimmed
content does not start with `#` yields a LONG_LINE finding at line
`i + 1` exactly when its length exceeds 100 characters; comment lines
are never flagged regardless of length; every LONG_LINE finding has
priority `"low"`. -/
theorem C6_long_line_boundary (path content : String) (tree : Node) :
    (∀ (i : Nat) (h : i < (pySplitLines content).length),
      isCommentLine ((pySplitLines content).get ⟨i, h⟩) = false →
      ((∃ o ∈ (analyze_refactoring path (.ok (content, tree))
          "all").opportunities,
        o.otype = "LONG_LINE" ∧ o.line = i + 1) ↔
        ((pySplitLines content).get ⟨i, h⟩).length > 100)) ∧
    (∀ (i : Nat) (h : i < (pySplitLines content).length),
      isCommentLine ((pySplitLines content).get ⟨i, h⟩) = true →
      ¬ ∃ o ∈ (analyze_refactoring path (.ok (content, tree))
          "all").opportunities,
        o.otype = "LONG_LINE" ∧ o.line = i + 1) ∧
    (∀ o ∈ (analyze_refactoring path (.ok (content, tree))
        "all").opportunities,
      o.otype = "LONG_LINE" → o.priority = "low") := by
  refine ⟨?_, ?_, ?_⟩
  · intro i h hnc
    rw [longLine_mem_iff]
    constructor
    · rintro ⟨line, hget, hlen, _⟩
      rw [List.getElem?_eq_getElem h] at hget
      have : line = (pySplitLines content).get ⟨i, h⟩ :=
        (Option.some.injEq _ _).mp hget.symm
      rw [← this]
      exact hlen
    · intro hlen
      exact ⟨(pySplitLines content).get ⟨i, h⟩,
        List.getElem?_eq_getElem h, hlen, hnc⟩
  · intro i h hc hex
    obtain ⟨line, hget, _, hnc⟩ := (longLine_mem_iff path content tree i).mp hex
    rw [List.getElem?_eq_getElem h] at hget
    have : line = (pySplitLines content).get ⟨i, h⟩ :=
      (Option.some.injEq _ _).mp hget.symm
    rw [this] at hnc
    rw [hc] at hnc
    exact absurd hnc (by decide)
  · intro o ho hot
    rw [opportunities_all] at ho
    rcases List.mem_append.mp ho with h1 | h2
    · rw [refactorTreeOpportunities_eq] at h1
      obtain ⟨n, _, hn⟩ := List.mem_flatMap.mp h1
      rcases rtEmit_otype path n o hn with h | h <;> rw [h] at hot <;>
        exact absurd hot (by decide)
    · rw [refactorLineOpportunities_eq] at h2
      obtain ⟨il, _, hil⟩ := List.mem_flatMap.mp h2
      rw [rlEmit] at hil
      rcases List.mem_append.mp hil with hL | hM
      · split at hL
        · rw [List.mem_singleton] at hL
          rw [hL]
        · exact absurd hL (List.not_mem_nil o)
      · rcases hm : magicSearch il.2 with _ | num
        · rw [hm] at hM
          exact absurd hM (List.not_mem_nil o)
        · rw [hm] at hM
          by_cases hc : isCommentLine il.2
          · simp [hc] at hM
          · simp [hc] at hM
            rw [hM.2] at hot
            simp at hot

/-- Three raw lines: 101 `a`s, then 100 `b`s, then a comment of 151
characters. -/
def boundaryContent : String :=
  String.mk (List.replicate 101 'a') ++ "\n" ++
    String.mk (List.replicate 100 'b') ++ "\n" ++
    "#" ++ String.mk (List.replicate 150 'c')

theorem C6_long_line_boundary_witness :
    (∃ o ∈ (analyze_refactoring "f.py"
        (.ok (boundaryContent, .node .module 0 [])) "all").opportunities,
      o.otype = "LONG_LINE" ∧ o.line = 1) ∧
    (¬ ∃ o ∈ (analyze_refactoring "f.py"
        (.ok (boundaryContent, .node .module 0 [])) "all").opportunities,
      o.otype = "LONG_LINE" ∧ o.line = 2) ∧
    (¬ ∃ o ∈ (analyze_refactoring "f.py"
        (.ok (boundaryContent, .node .module 0 [])) "all").opportunities,
      o.otype = "LONG_LINE" ∧ o.line = 3) := by
  have hthm := C6_long_line_boundary "f.py" boundaryContent
    (.node .module 0 [])
  refine ⟨?_, ?_, ?_⟩
  · exact (hthm.1 0 (by decide) (by decide)).mpr (by decide)
  · intro hex
    have := (hthm.1 1 (by decide) (by decide)).mp hex
    exact absurd this (by decide)
  · exact hthm.2.1 2 (by decide) (by decide)

end Optimist
